import Mathlib

/-!
Shallow embedding of `intrinsic_alignments/ia_models/ia_model_components.py`
(the Dimroth-Watson distribution core: normalization, pdf, rejection sampler,
alignment-strength mapping, series inverse of the imaginary error function,
and the mixture-model fitting loop), together with theorems checking the
natural-language specification of that file against the code.

Modelling conventions used throughout:
* Python floats are modelled as real numbers `ℝ`.  The three IEEE-754 special
  values that the code manipulates explicitly (`np.inf`, `-np.inf`, `nan`)
  are modelled by the inductive type `FloatVal` where the code's behaviour
  depends on them.
* `scipy.special.erf` and `scipy.special.erfi` are external collaborators;
  the embedding takes them as function parameters `(erf erfi : ℝ → ℝ)`.
* `np.random` draws are external inputs; the embedding takes the uniform
  streams consumed by the code as explicit function arguments.
* Fallible numpy / Python operations (`raise ValueError`, the shape-mismatch
  of a boolean masked assignment, and the `raise warn(msg)` statement) are
  modelled with `Except String`.
* `np.exp` overflows to `inf` for arguments above `expOverflowK` and
  underflows to `0.0` for arguments below `expUnderflowK`; these two
  float64 thresholds are named constants below.
-/

noncomputable section

open Real

/-- machine epsilon of IEEE double precision, `np.finfo(float).eps = 2^-52`. -/
def machineEps : ℝ := 1 / 2 ^ 52

/-- least float64 `x` with `np.exp(x) == np.inf` lies just above this value;
`np.exp` overflows exactly for arguments strictly above it. -/
def expOverflowK : ℝ := 709.782712893384

/-- greatest float64 `x` with `np.exp(x) == 0.0` lies just below this value;
`np.exp` underflows to zero exactly for arguments strictly below it. -/
def expUnderflowK : ℝ := -745.133219101941

/-- The IEEE-754 double values the source manipulates explicitly: ordinary
finite values, the two infinities produced by `np.inf` / division by zero,
and `nan`. -/
inductive FloatVal : Type
  | fin (x : ℝ)
  | pinf
  | ninf
  | nan

/-- IEEE division `x / d` of finite doubles, keeping track of the special
results: `0/0 = nan`, `x/0 = ±inf` for `x ≠ 0`. -/
def fdivF (x d : ℝ) : FloatVal :=
  if d = 0 then
    (if x = 0 then FloatVal.nan else if 0 < x then FloatVal.pinf else FloatVal.ninf)
  else FloatVal.fin (x / d)

namespace DimrothWatson

/-- `DimrothWatson._norm` (ia_model_components.py:988-1012).  The code first
fills `norm = 4.0*sqrt(pi)*erf(sqrt(|k|))/(4.0*sqrt(|k|))` for every nonzero
`k`, then overwrites the entries with `k < 0` using `erfi` in place of `erf`,
and finally returns `np.where(k == 0, 0.5, 1.0/norm)` with the division by
zero at `k = 0` suppressed.  `erf`/`erfi` are scipy externals passed as
parameters. -/
def _norm (erf erfi : ℝ → ℝ) (k : ℝ) : ℝ :=
  if k = 0 then 0.5
  else if k < 0 then
    1 / (4 * Real.sqrt π * erfi (Real.sqrt |k|) / (4 * Real.sqrt |k|))
  else
    1 / (4 * Real.sqrt π * erf (Real.sqrt |k|) / (4 * Real.sqrt |k|))

/-- the raw density value `norm * np.exp(-1.0*k*x**2)` computed by
`DimrothWatson._pdf` before its saturation handling. -/
def _pdfRaw (erf erfi : ℝ → ℝ) (x k : ℝ) : ℝ :=
  _norm erf erfi k * Real.exp (-1 * k * x ^ 2)

/-- `DimrothWatson._pdf` (ia_model_components.py:1014-1048).  After computing
`p = norm*exp(-1.0*k*x**2)` (with `np.nan_to_num` mapping a `nan` to `0` and
an overflowed `inf` to a huge finite value `≥ 1/eps`, so that in this exact
embedding the edge mask `p >= 1.0/eps  |  p == 0.0` covers all saturated
results), the code zeroes every edge entry and then overwrites the edge
entries near the poles: height `1/(2*eps)` for `x` within `eps` of `±1` when
`k > 1` (bipolar), and for `x` within `eps` of `0` when `k < -1` (girdle).
The two overwrite regions are disjoint (`k > 1` versus `k < -1`), so the
in-place overwrite order of the source does not matter. -/
def _pdf (erf erfi : ℝ → ℝ) (x k : ℝ) : ℝ :=
  let p := _pdfRaw erf erfi x k
  if 1 / machineEps ≤ p ∨ p = 0 then
    if ((1 - machineEps ≤ x ∨ x ≤ -1 + machineEps) ∧ 1 < k) then 1 / (2 * machineEps)
    else if ((0 - machineEps ≤ x ∧ x ≤ 0 + machineEps) ∧ k < -1) then 1 / (2 * machineEps)
    else 0
  else p

/-- the public `pdf` wrapper inherited from `scipy.stats.rv_continuous`:
zero outside the support `[a, b] = [-1, 1]` set by `_argcheck`, and `_pdf`
inside it. -/
def pdf (erf erfi : ℝ → ℝ) (x k : ℝ) : ℝ :=
  if -1 ≤ x ∧ x ≤ 1 then _pdf erf erfi x k else 0

/-- `DimrothWatson.g1_pdf` (ia_model_components.py:1156-1163), the proposal
density used for `k > 0`. -/
def g1_pdf (x k : ℝ) : ℝ :=
  let k2 := -1 * k
  let eta := Real.sqrt (-1 * k2)
  let C := eta / Real.arctan eta
  (C / (1 + eta ^ 2 * x ^ 2)) / 2

/-- `DimrothWatson.g1_isf` (ia_model_components.py:1165-1171), the inverse
survival function of the `k > 0` proposal. -/
def g1_isf (y k : ℝ) : ℝ :=
  let k2 := -1 * k
  let eta := Real.sqrt (-1 * k2)
  (1 / eta) * Real.tan (y * Real.arctan eta)

/-- `DimrothWatson.m1` (ia_model_components.py:1173-1177), the enveloping
factor for the `k > 0` proposal — the constant 2. -/
def m1 (k : ℝ) : ℝ := 2

/-- `DimrothWatson.g2_pdf` (ia_model_components.py:1179-1185), the proposal
density used for `k < 0`. -/
def g2_pdf (x k : ℝ) : ℝ :=
  let k2 := -1 * k
  let norm := 2 * (Real.exp k2 - 1) / k2
  Real.exp (k2 * |x|) / norm

/-- `DimrothWatson.g2_isf` (ia_model_components.py:1187-1193), the inverse
survival function of the `k < 0` proposal. -/
def g2_isf (y k : ℝ) : ℝ :=
  let k2 := -1 * k
  let C := k2 / (Real.exp k2 - 1)
  Real.log (k2 * y / C + 1) / k2

/-- `DimrothWatson.m2` (ia_model_components.py:1195-1202), the enveloping
factor for the `k < 0` proposal, computed as `C * norm` with
`C = k2*(exp(k2)-1)^(-1)` and `norm = 2*(exp(k2)-1)/k2` for `k2 = -k`. -/
def m2 (k : ℝ) : ℝ :=
  let k2 := -1 * k
  let C := k2 * (Real.exp k2 - 1)⁻¹
  let norm := 2 * (Real.exp k2 - 1) / k2
  C * norm

end DimrothWatson

/-- `alignment_strenth` (ia_model_components.py:1353-1366).  The code rebinds
`p = p*np.pi/2.0`, sets `k = np.tan(p)`, then replaces `k` by `+inf` where
the REBOUND `p` equals `1.0` and by `-inf` where it equals `-1.0`, and
returns `-1.0*k`.  The infinity substitutions are modelled with `FloatVal`. -/
def alignment_strenth (p : ℝ) : FloatVal :=
  let p2 := p * π / 2
  if p2 = 1 then FloatVal.ninf
  else if p2 = -1 then FloatVal.pinf
  else FloatVal.fin (-1 * Real.tan p2)

/-- `inverse_alignment_strenth` (ia_model_components.py:1369-1380) on a
finite shape parameter: `-1.0*np.arctan(k)/(np.pi/2.0)`. -/
def inverse_alignment_strenth (k : ℝ) : ℝ :=
  -1 * Real.arctan k / (π / 2)

/-- `inverse_alignment_strenth` applied to a float value that may be one of
the IEEE specials: `np.arctan(±inf) = ±π/2` and `np.arctan(nan) = nan`, then
the same `-1.0*arctan(k)/(π/2)` formula. -/
def inverse_alignment_strenthF : FloatVal → FloatVal
  | FloatVal.fin x => FloatVal.fin (inverse_alignment_strenth x)
  | FloatVal.pinf => FloatVal.fin (-1 * (π / 2) / (π / 2))
  | FloatVal.ninf => FloatVal.fin (-1 * (-(π / 2)) / (π / 2))
  | FloatVal.nan => FloatVal.nan

/-- the coefficients `C_k` of the `erfiinv` power series as the specification
states them: `C_0 = C_1 = 1` and
`C_k = sum over m < k of C_m * C_(k-1-m) / ((m+1)*(2m+1))` for `k > 1`. -/
def cCoeff : ℕ → ℝ
  | 0 => 1
  | 1 => 1
  | n + 2 =>
    ∑ m in (Finset.range (n + 2)).attach,
      cCoeff m.1 * cCoeff (n + 1 - m.1) / (((m.1 : ℝ) + 1) * (2 * (m.1 : ℝ) + 1))
decreasing_by
  · exact Finset.mem_range.mp m.2
  · exact lt_of_le_of_lt (Nat.sub_le _ _) (Nat.lt_succ_self _)

/-- state of the `erfiinv` loop (ia_model_components.py:1333-1350) after its
first `n` iterations: the coefficient array `c` (initialised to
`np.zeros(kmax)` with `c[0] = c[1] = 1.0`) and the running `result`.  At
iteration `n` the code recomputes `c[n]` when `n > 1` and then adds the
`n`-th series term. -/
def erfiinvIter (y : ℝ) (kmax : ℕ) : ℕ → List ℝ × ℝ
  | 0 => ((((List.replicate kmax (0 : ℝ)).set 0 1).set 1 1), 0)
  | n + 1 =>
    let st := erfiinvIter y kmax n
    let c :=
      if 1 < n then
        st.1.set n (∑ m in Finset.range n,
          st.1.getD m 0 * st.1.getD (n - 1 - m) 0 / (((m : ℝ) + 1) * (2 * (m : ℝ) + 1)))
      else st.1
    (c, st.2 + (-1) ^ n * c.getD n 0 / (2 * (n : ℝ) + 1) * ((Real.sqrt π / 2) * y) ^ (2 * n + 1))

/-- `erfiinv` (ia_model_components.py:1333-1350): run the loop for
`k in range(kmax)` and return the accumulated `result`. -/
def erfiinv (y : ℝ) (kmax : ℕ) : ℝ :=
  (erfiinvIter y kmax kmax).2

/-- the loop of `fit_watson_mixture_model` (ia_model_components.py:1226-1240)
with the body of each iteration abstracted into `step : ℝ → ℝ`, which models
`minimize(f, (p0), args=(x, watson_mixture_membership(x, p0)),
bounds=[(-0.99,0.99)]).x[0]` — a deterministic function of the current `p0`
for a fixed sample `x` (scipy`s bounded minimizer is an external
collaborator).  The fuel argument counts the remaining loop iterations; the
code's own counter `num_iter` is threaded as `n`.  Each round computes
`p1 = step p0`, increments `num_iter`, computes `dp = (p1-p0)/p1` and stops
as soon as `dp < ptol` or `num_iter >= max_iter`, returning the last `p1`. -/
def fitIter (step : ℝ → ℝ) (ptol : ℝ) (max_iter : ℕ) : ℕ → ℝ → ℕ → ℝ × ℕ
  | 0, p0, n => (p0, n)
  | fuel + 1, p0, n =>
    let p1 := step p0
    let dp := (p1 - p0) / p1
    if dp < ptol ∨ max_iter ≤ n + 1 then (p1, n + 1)
    else fitIter step ptol max_iter fuel p1 (n + 1)

/-- `fit_watson_mixture_model` (ia_model_components.py:1204-1240): start the
loop at `p0 = 0.0`, `num_iter = 0`.  `max_iter + 1` rounds of fuel always
suffice because the stop test fires no later than `num_iter = max_iter`
(and for `max_iter = 0` the first round already stops).  Returns the final
`p1` together with the number of iterations executed. -/
def fit_watson_mixture_model (step : ℝ → ℝ) (ptol : ℝ) (max_iter : ℕ) : ℝ × ℕ :=
  fitIter step ptol max_iter (max_iter + 1) 0 0

/-- the stop quantity of the fit loop after iteration `j ≥ 1`: the code's
`dp = (p1 - p0)/p1` evaluated at the iterates `p1 = step^[j] 0` and
`p0 = step^[j-1] 0` is below `ptol`. -/
def fitStopAt (step : ℝ → ℝ) (ptol : ℝ) (j : ℕ) : Prop :=
  (step^[j] 0 - step^[j - 1] 0) / step^[j] 0 < ptol

/-- the error message of the dimension-mismatch `ValueError` raised by
`DimrothWatson._rvs` when the shape array length is incompatible. -/
def dimErrMsg : String := "ValueError: if size argument is given, len(k) must be 1 or equal to size."

/-- the error message modelling numpy`s `ValueError` for a boolean masked
assignment whose right-hand side has more than one element but fewer or more
elements than the mask selects. -/
def broadcastErrMsg : String := "ValueError: NumPy boolean array indexing assignment size mismatch"

/-- the error message modelling the `raise warn(msg)` statement at
ia_model_components.py:1150-1152: `warnings.warn` emits the warning and
returns `None`, so the `raise` statement raises
`TypeError: exceptions must derive from BaseException`, aborting the call. -/
def raiseWarnErrMsg : String := "TypeError: raise warn(msg) raises None because warnings.warn returns None"

/-- walk `res` and `ms` together, keeping the entry of `res` where the mask
is `true` and consuming the next value of `vs` where it is `false` — the
positional semantics of numpy`s `res[~ms] = vs`. -/
def fillFalse {α : Type} : List α → List Bool → List α → List α
  | [], _, _ => []
  | r :: res, [], vs => r :: fillFalse res [] vs
  | r :: res, b :: ms, vs =>
    if b then r :: fillFalse res ms vs
    else
      match vs with
      | [] => r :: fillFalse res ms []
      | v :: vs2 => v :: fillFalse res ms vs2

/-- number of `false` entries of a mask. -/
def countFalse (ms : List Bool) : ℕ := (ms.filter (fun b => b = false)).length

/-- numpy boolean masked assignment `res[~ms] = ys`: if `ys` has exactly as
many elements as the mask selects they are assigned positionally; a
one-element `ys` is broadcast to every selected position; any other length
raises `ValueError`. -/
def npMaskedSet {α : Type} [Inhabited α] (res : List α) (ms : List Bool) (ys : List α) :
    Except String (List α) :=
  if ys.length = countFalse ms then Except.ok (fillFalse res ms ys)
  else if ys.length = 1 then
    Except.ok (fillFalse res ms (List.replicate (countFalse ms) (ys.headD default)))
  else Except.error broadcastErrMsg

namespace DimrothWatson

/-- `k == 0` test of `_rvs` as a boolean. -/
def zeroB (kv : ℝ) : Bool := if kv = 0 then true else false

/-- the `_rvs` edge test `(np.exp(k) == np.inf) | (np.exp(k) == 0.0)` in
float64 arithmetic: `exp` overflows above `expOverflowK` and underflows
below `expUnderflowK`. -/
def edgeB (kv : ℝ) : Bool :=
  if expOverflowK < kv ∨ kv < expUnderflowK then true else false

/-- membership in `kk = k[(~zero_k) & (~edge_mask)]`. -/
def pendingB (kv : ℝ) : Bool :=
  if zeroB kv = false ∧ edgeB kv = false then true else false

/-- state carried by the rejection loop of `_rvs`: the output array, the
success mask, the still-pending shape parameters `kk`, the success count and
the iteration counter.  The code`s separate `n_remaining` variable always
equals `kk.length` and is not duplicated here. -/
structure RvsState : Type where
  result : List ℝ
  mask : List Bool
  kk : List ℝ
  nsucc : ℕ
  niter : ℕ

/-- one iteration of the rejection loop body of `_rvs`
(ia_model_components.py:1105-1148).  `u1 u2 u3 : round → position → draw`
are the three uniform streams `uran1, uran2, uran3`.  For each pending
position the candidate `y` is drawn through the applicable proposal`s
inverse survival function, negated when `uran3 < 0.5`, and accepted when
`f(y)/(g(y)*M) > uran2`; then `result[~mask] = y`, `mask[~mask] = keep`,
`kk = kk[~keep]` with numpy masked-assignment semantics. -/
def roundBody (erf erfi : ℝ → ℝ) (u1 u2 u3 : ℕ → ℕ → ℝ) (st : RvsState) :
    Except String RvsState :=
  let r := st.niter
  let n := st.kk.length
  let y0 := (List.range n).map (fun j =>
    let kv := st.kk.getD j 0
    if 0 < kv then g1_isf (u1 r j) kv
    else if kv < 0 then g2_isf (u1 r j) kv
    else 0)
  let y := (List.range n).map (fun j =>
    if u3 r j < 0.5 then -1 * y0.getD j 0 else y0.getD j 0)
  let keep := (List.range n).map (fun j =>
    let kv := st.kk.getD j 0
    let gy := if 0 < kv then g1_pdf (y.getD j 0) kv
              else if kv < 0 then g2_pdf (y.getD j 0) kv
              else 0
    let mv := if 0 < kv then m1 kv else if kv < 0 then m2 kv else 0
    let fy := pdf erf erfi (y.getD j 0) kv
    if u2 r j < fy / (gy * mv) then true else false)
  match npMaskedSet st.result st.mask y with
  | Except.error e => Except.error e
  | Except.ok result2 =>
    match npMaskedSet st.mask st.mask keep with
    | Except.error e => Except.error e
    | Except.ok mask2 =>
      Except.ok
        { result := result2
          mask := mask2
          kk := ((st.kk.zip keep).filter (fun pr => pr.2 = false)).map Prod.fst
          nsucc := st.nsucc + (keep.filter (fun b => b = true)).length
          niter := st.niter + 1 }

/-- the `while (n_sucess < size) & (n_iter < max_iter)` loop of `_rvs`,
with the bound `n_iter < max_iter = 100` carried as fuel: the loop is
entered with fuel `100` and iteration counter `0`, so the fuel runs out
exactly when `n_iter` reaches `100`. -/
def rvsLoop (erf erfi : ℝ → ℝ) (u1 u2 u3 : ℕ → ℕ → ℝ) (size : ℕ) :
    ℕ → RvsState → Except String RvsState
  | 0, st => Except.ok st
  | fuel + 1, st =>
    if st.nsucc < size then
      match roundBody erf erfi u1 u2 u3 st with
      | Except.error e => Except.error e
      | Except.ok st2 => rvsLoop erf erfi u1 u2 u3 size fuel st2
    else Except.ok st

/-- `result` after the `k == 0` entries have been filled
(ia_model_components.py:1081-1086): the array starts as `np.zeros(size)`,
and each `k == 0` position receives the next draw of `uran0`, rescaled by
`*2 - 1.0`. -/
def rvsZeroFill (u0 : ℕ → ℝ) (kL : List ℝ) (sz : ℕ) : List ℝ :=
  (List.range sz).map (fun j =>
    let kv := kL.getD j 0
    if zeroB kv then u0 ((kL.take j).filter zeroB).length * 2 - 1
    else (List.replicate sz (0 : ℝ)).getD j 0)

/-- `result` after the overflow edge cases have been filled
(ia_model_components.py:1088-1094): positions with `exp(k)` overflowing and
`k > 0` receive the next `np.random.choice([1,-1])` draw, positions with
`exp(k)` underflowing and `k < 0` receive `0.0`. -/
def rvsEdgeFill (u0 : ℕ → ℝ) (ch : ℕ → Bool) (kL : List ℝ) (sz : ℕ) : List ℝ :=
  (List.range sz).map (fun j =>
    let kv := kL.getD j 0
    if edgeB kv ∧ 0 < kv then
      (if ch ((kL.take j).filter (fun t => edgeB t && decide (0 < t))).length then 1 else -1)
    else if edgeB kv ∧ kv < 0 then 0
    else (rvsZeroFill u0 kL sz).getD j 0)

/-- the state with which `_rvs` enters its rejection loop
(ia_model_components.py:1096-1102): `n_sucess = sum(zero_k) + sum(edge_mask)`,
`kk = k[(~zero_k) & (~edge_mask)]`, and `mask` initialised to `False`
everywhere and then set to `True` at the `k == 0` positions ONLY — the
overflow edge positions are counted as successes but never added to the
mask. -/
def rvsInit (u0 : ℕ → ℝ) (ch : ℕ → Bool) (kL : List ℝ) (sz : ℕ) : RvsState :=
  { result := rvsEdgeFill u0 ch kL sz
    mask := kL.map zeroB
    kk := kL.filter pendingB
    nsucc := (kL.filter zeroB).length + (kL.filter edgeB).length
    niter := 0 }

/-- body of `_rvs` after the size/broadcast preamble
(ia_model_components.py:1080-1154), for the resolved shape list `kL` and
resolved size `sz = kL.length`.  `u0 : ℕ → ℝ` is the uniform stream for the
`k == 0` entries (`uran0`, rescaled to `[-1,1]`), `ch : ℕ → Bool` the
`np.random.choice([1,-1])` stream for the overflow entries (`true ↦ 1`),
and `u1 u2 u3` the per-round uniform streams of the rejection loop.
After the loop the code checks `if (n_iter == max_iter)` and executes
`raise warn(msg)`, modelled as the `TypeError` abort. -/
def rvsMain (erf erfi : ℝ → ℝ) (u0 : ℕ → ℝ) (ch : ℕ → Bool) (u1 u2 u3 : ℕ → ℕ → ℝ)
    (kL : List ℝ) (sz : ℕ) : Except String (List ℝ) :=
  match rvsLoop erf erfi u1 u2 u3 sz 100 (rvsInit u0 ch kL sz) with
  | Except.error e => Except.error e
  | Except.ok st =>
    if st.niter = 100 then Except.error raiseWarnErrMsg
    else Except.ok st.result

/-- `DimrothWatson._rvs` (ia_model_components.py:1050-1154).  The preamble
(lines 1067-1078) resolves the requested `size` against the shape array:
for `size != 1` the shape array must have length `size` (used as is) or
length 1 (broadcast with `np.ones(size)*k`), anything else raises the
dimension-mismatch `ValueError`; for `size == 1` the effective size is
`len(k)`. -/
def _rvs (erf erfi : ℝ → ℝ) (u0 : ℕ → ℝ) (ch : ℕ → Bool) (u1 u2 u3 : ℕ → ℕ → ℝ)
    (k : List ℝ) (size : ℕ) : Except String (List ℝ) :=
  if size ≠ 1 then
    if k.length = size then rvsMain erf erfi u0 ch u1 u2 u3 k size
    else if k.length = 1 then
      rvsMain erf erfi u0 ch u1 u2 u3 (List.replicate size (k.headD 0)) size
    else Except.error dimErrMsg
  else rvsMain erf erfi u0 ch u1 u2 u3 k k.length

end DimrothWatson

/-- `halotools.utils.normalized_vectors` applied to one 3-vector — an
external collaborator of `axes_correlated_with_input_vector`: each component
is divided by the Euclidean norm of the vector, with IEEE division
semantics (a zero norm produces `nan` components via `0/0`, no exception is
raised). -/
def normalizedVectorF (v : ℝ × ℝ × ℝ) : FloatVal × FloatVal × FloatVal :=
  let n := Real.sqrt (v.1 ^ 2 + v.2.1 ^ 2 + v.2.2 ^ 2)
  (fdivF v.1 n, fdivF v.2.1 n, fdivF v.2.2 n)

/-- `axes_correlated_with_input_vector` (ia_model_components.py:1438-1480).
The body normalizes the reference vectors — with no zero-norm or finiteness
check anywhere — then asserts that the column count is 3 (guaranteed by the
typed triples of this embedding, so the assert is the `if 3 = 3` guard
below), and hands the normalized vectors to the external halotools rotation
pipeline (`angles_between_list_of_vectors`, `vectors_normal_to_planes`,
`rotation_matrices_from_angles`, `rotate_vector_collection` applied to the
`axes_correlated_with_z` draws), modelled by the parameter `rot`; none of
those numpy routines raises an exception on `nan` input, they propagate it.
The assert is the only fallible construct in the body. -/
def axes_correlated_with_input_vector
    (rot : List (FloatVal × FloatVal × FloatVal) → List (FloatVal × FloatVal × FloatVal))
    (input_vectors : List (ℝ × ℝ × ℝ)) :
    Except String (List (FloatVal × FloatVal × FloatVal)) :=
  let input_unit_vectors := input_vectors.map normalizedVectorF
  if 3 = 3 then Except.ok (rot input_unit_vectors)
  else Except.error "AssertionError"

/-- C10: for every nonzero shape parameter the enveloping factor `m2`
computed as `C * norm` with `C = k2*(exp(k2)-1)^(-1)` and
`norm = 2*(exp(k2)-1)/k2` collapses to the constant 2, the same envelope
constant `M = 2` that `m1` returns. -/
theorem m2_envelope_eq_two (k : ℝ) (h : k ≠ 0) :
    DimrothWatson.m2 k = 2 ∧ DimrothWatson.m1 k = 2 := by
  constructor
  · have hnk : -1 * k ≠ 0 := by simpa using h
    have hek : Real.exp (-1 * k) - 1 ≠ 0 := by
      intro hc
      have hone : Real.exp (-1 * k) = Real.exp 0 := by rw [Real.exp_zero]; linarith
      exact hnk (Real.exp_eq_exp.mp hone)
    show (-1 * k) * (Real.exp (-1 * k) - 1)⁻¹ * (2 * (Real.exp (-1 * k) - 1) / (-1 * k)) = 2
    calc (-1 * k) * (Real.exp (-1 * k) - 1)⁻¹ * (2 * (Real.exp (-1 * k) - 1) / (-1 * k))
        = 2 * ((-1 * k) / (-1 * k)) * ((Real.exp (-1 * k) - 1) / (Real.exp (-1 * k) - 1)) := by
          ring
      _ = 2 := by rw [div_self hnk, div_self hek]; ring
  · rfl

/-- witness for `m2_envelope_eq_two` at the concrete shape `k = 1`. -/
theorem m2_envelope_eq_two_witness :
    (1 : ℝ) ≠ 0 ∧ (DimrothWatson.m2 1 = 2 ∧ DimrothWatson.m1 1 = 2) :=
  ⟨one_ne_zero, m2_envelope_eq_two 1 one_ne_zero⟩

/-- C3, counterexample: the claimed value of `_norm` for `k > 0` — the
reciprocal of `sqrt(pi)*erf(sqrt(k))/(4*sqrt(k))` — differs from what the
code computes.  Instantiated at `k = 1` with the surrogate external
`erf = fun _ => 1` (the discrepancy is the structural factor 4, independent
of the `erf` implementation): the code returns `1/sqrt(pi)` while the
claimed formula gives `4/sqrt(pi)`. -/
theorem norm_claim_factor_counterexample :
    DimrothWatson._norm (fun _ => 1) (fun _ => 1) 1 ≠
      1 / (Real.sqrt π * (fun _ => (1 : ℝ)) (Real.sqrt 1) / (4 * Real.sqrt 1)) := by
  have hs : (0 : ℝ) < Real.sqrt π := Real.sqrt_pos.mpr Real.pi_pos
  have hlhs : DimrothWatson._norm (fun _ => 1) (fun _ => 1) 1 = 1 / Real.sqrt π := by
    simp only [DimrothWatson._norm]
    rw [if_neg (by norm_num : ¬(1 : ℝ) = 0), if_neg (by norm_num : ¬(1 : ℝ) < 0)]
    rw [abs_one, Real.sqrt_one]
    rw [mul_one, mul_one, mul_comm (4 : ℝ) (Real.sqrt π), mul_div_assoc]
    norm_num
  have hrhs : (1 : ℝ) / (Real.sqrt π * (fun _ => (1 : ℝ)) (Real.sqrt 1) / (4 * Real.sqrt 1)) =
      4 / Real.sqrt π := by
    simp only [Real.sqrt_one, mul_one]
    rw [one_div_div]
  rw [hlhs, hrhs]
  intro heq
  rw [div_eq_div_iff hs.ne' hs.ne'] at heq
  linarith

/-- C3, amended: `_norm` returns `0.5` exactly at `k = 0` (the division by
zero suppressed), and for nonzero `k` the reciprocal of
`sqrt(pi)*erf(sqrt(|k|))/sqrt(|k|)` (positive branch) respectively
`sqrt(pi)*erfi(sqrt(|k|))/sqrt(|k|)` (negative branch): the code's leading
`4.0*` cancels against its `/(4.0*sqrt(k))`, so no factor `1/4` remains. -/
theorem norm_branches_amended (erf erfi : ℝ → ℝ) (k : ℝ) :
    DimrothWatson._norm erf erfi k =
      if k = 0 then 0.5
      else if k < 0 then 1 / (Real.sqrt π * erfi (Real.sqrt |k|) / Real.sqrt |k|)
      else 1 / (Real.sqrt π * erf (Real.sqrt |k|) / Real.sqrt |k|) := by
  simp only [DimrothWatson._norm]
  split
  · rfl
  · split
    · congr 1
      rw [mul_assoc]
      exact mul_div_mul_left _ _ (by norm_num)
    · congr 1
      rw [mul_assoc]
      exact mul_div_mul_left _ _ (by norm_num)

/-- C4: the infinity masks of `alignment_strenth` test the rescaled value
`p*pi/2` against `±1.0` instead of the original `p`, so (i) the interior
input `p = 2/pi` (which is inside `(-0.99, 0.99)` and not `1`) is mapped to
`-inf`, and the round trip through `inverse_alignment_strenth` returns `1`
rather than `2/pi`; and (ii) the boundary input `p = 1.0` misses the mask
and yields the finite value `-tan(pi/2)` instead of a signed infinity. -/
theorem alignment_strenth_infinity_mask_misplaced :
    alignment_strenth (2 / π) = FloatVal.ninf ∧
    inverse_alignment_strenthF (alignment_strenth (2 / π)) = FloatVal.fin 1 ∧
    ((2 / π : ℝ) ≠ 1 ∧ -0.99 < (2 / π : ℝ) ∧ (2 / π : ℝ) < 0.99) ∧
    alignment_strenth 1 = FloatVal.fin (-1 * Real.tan (π / 2)) := by
  have hπ : (π : ℝ) ≠ 0 := Real.pi_ne_zero
  have hπ3 : (3 : ℝ) < π := Real.pi_gt_three
  have h1 : (2 / π) * π / 2 = 1 := by field_simp
  have hmain : alignment_strenth (2 / π) = FloatVal.ninf := by
    simp only [alignment_strenth]
    rw [if_pos h1]
  refine ⟨hmain, ?_, ⟨?_, ?_, ?_⟩, ?_⟩
  · rw [hmain]
    simp only [inverse_alignment_strenthF]
    congr 1
    field_simp
  · intro h
    rw [div_eq_one_iff_eq hπ] at h
    linarith
  · have h0 : (0 : ℝ) < 2 / π := by positivity
    linarith
  · rw [div_lt_iff Real.pi_pos]
    nlinarith
  · simp only [alignment_strenth]
    rw [if_neg (by intro h; rw [one_mul] at h; nlinarith), if_neg (by intro h; rw [one_mul] at h; nlinarith)]
    rw [one_mul]

/-- C5, counterexample: the degenerate reference vector `(0,0,0)` does not
raise any error — `axes_correlated_with_input_vector` divides by the zero
norm, producing `nan` components (IEEE `0/0`), and returns them as a normal
result (here with the identity standing for the external rotation
pipeline, which propagates `nan` without raising). -/
theorem axes_zero_vector_returns_nan :
    axes_correlated_with_input_vector (fun u => u) [((0 : ℝ), (0 : ℝ), (0 : ℝ))] =
      Except.ok [(FloatVal.nan, FloatVal.nan, FloatVal.nan)] := by
  simp [axes_correlated_with_input_vector, normalizedVectorF, fdivF]

/-- C5, amended: `axes_correlated_with_input_vector` performs no zero-norm
or finiteness check on the reference vectors; for every input (the zero
vector included) it returns `Except.ok` with the rotated normalized vectors
— a zero-length reference vector yields `nan` components that propagate
into the output instead of an explicit `DegenerateInput` error (no such
error exists in the code). -/
theorem axes_input_vector_never_errors
    (rot : List (FloatVal × FloatVal × FloatVal) → List (FloatVal × FloatVal × FloatVal))
    (vs : List (ℝ × ℝ × ℝ)) :
    axes_correlated_with_input_vector rot vs = Except.ok (rot (vs.map normalizedVectorF)) ∧
    normalizedVectorF (0, 0, 0) = (FloatVal.nan, FloatVal.nan, FloatVal.nan) := by
  constructor
  · rfl
  · simp [normalizedVectorF, fdivF]

/-- `getD` after `set` at the same (in-range) index reads back the value. -/
theorem List.getD_set_self {α : Type} (d : α) :
    ∀ (l : List α) (i : ℕ), i < l.length → ∀ v, (l.set i v).getD i d = v := by
  intro l
  induction l with
  | nil => intro i h; simp at h
  | cons a t ih =>
    intro i h v
    cases i with
    | zero => simp
    | succ n =>
      simp only [List.set_cons_succ, List.getD_cons_succ]
      exact ih n (by simpa using h) v

/-- `getD` after `set` at a different index is unchanged. -/
theorem List.getD_set_ne {α : Type} (d : α) :
    ∀ (l : List α) (i j : ℕ), i ≠ j → ∀ v, (l.set i v).getD j d = l.getD j d := by
  intro l
  induction l with
  | nil => intro i j _ v; simp [List.set]
  | cons a t ih =>
    intro i j hij v
    cases i with
    | zero =>
      cases j with
      | zero => exact absurd rfl hij
      | succ m => simp
    | succ n =>
      cases j with
      | zero => simp
      | succ m =>
        simp only [List.set_cons_succ, List.getD_cons_succ]
        exact ih n m (fun hc => hij (by rw [hc])) v

/-- `getD` of a `replicate` list with the replicated value as default. -/
theorem List.getD_replicate_zero (n i : ℕ) :
    (List.replicate n (0 : ℝ)).getD i 0 = 0 := by
  induction n generalizing i with
  | zero => simp
  | succ m ih =>
    cases i with
    | zero => simp
    | succ j => simpa using ih j

/-- C8: `_pdf` returns the raw product `normalization(k) * exp(-k*x^2)`
whenever that value is strictly between the underflow level `0` and the
representability level `1/eps`; when it saturates (`>= 1/eps`, modelling
overflow and `nan_to_num`-mapped infinities, or `== 0`, modelling underflow
and `nan_to_num`-mapped `nan`s), the analytic limit is substituted instead
of an error: height `1/(2*eps)` for `x` within `eps` of `±1` when `k > 1`
(bipolar limit), height `1/(2*eps)` for `x` within `eps` of `0` when
`k < -1` (girdle limit), and `0` elsewhere. -/
theorem pdf_saturation_substitution (erf erfi : ℝ → ℝ) (x k : ℝ) :
    (¬(1 / machineEps ≤ DimrothWatson._pdfRaw erf erfi x k ∨
        DimrothWatson._pdfRaw erf erfi x k = 0) →
      DimrothWatson._pdf erf erfi x k = DimrothWatson._pdfRaw erf erfi x k) ∧
    ((1 / machineEps ≤ DimrothWatson._pdfRaw erf erfi x k ∨
        DimrothWatson._pdfRaw erf erfi x k = 0) →
      (((1 - machineEps ≤ x ∨ x ≤ -1 + machineEps) → 1 < k →
          DimrothWatson._pdf erf erfi x k = 1 / (2 * machineEps)) ∧
       ((0 - machineEps ≤ x ∧ x ≤ 0 + machineEps) → k < -1 →
          DimrothWatson._pdf erf erfi x k = 1 / (2 * machineEps)) ∧
       (¬((1 - machineEps ≤ x ∨ x ≤ -1 + machineEps) ∧ 1 < k) →
        ¬((0 - machineEps ≤ x ∧ x ≤ 0 + machineEps) ∧ k < -1) →
          DimrothWatson._pdf erf erfi x k = 0))) := by
  constructor
  · intro hedge
    simp only [DimrothWatson._pdf]
    rw [if_neg hedge]
  · intro hedge
    refine ⟨?_, ?_, ?_⟩
    · intro hb hk
      simp only [DimrothWatson._pdf]
      rw [if_pos hedge, if_pos ⟨hb, hk⟩]
    · intro hg hk
      have hnb : ¬((1 - machineEps ≤ x ∨ x ≤ -1 + machineEps) ∧ 1 < k) := by
        intro hc
        linarith [hc.2]
      simp only [DimrothWatson._pdf]
      rw [if_pos hedge, if_neg hnb, if_pos ⟨hg, hk⟩]
    · intro hnb hng
      simp only [DimrothWatson._pdf]
      rw [if_pos hedge, if_neg hnb, if_neg hng]

/-- witness for `pdf_saturation_substitution` at `x = 0`, `k = 0` with the
surrogate externals `erf = erfi = fun _ => 1`: the raw value is `0.5`,
inside the representable regime, and `_pdf` returns it unchanged. -/
theorem pdf_saturation_substitution_witness :
    (¬(1 / machineEps ≤ DimrothWatson._pdfRaw (fun _ => 1) (fun _ => 1) 0 0 ∨
        DimrothWatson._pdfRaw (fun _ => 1) (fun _ => 1) 0 0 = 0)) ∧
    DimrothWatson._pdf (fun _ => 1) (fun _ => 1) 0 0 =
      DimrothWatson._pdfRaw (fun _ => 1) (fun _ => 1) 0 0 := by
  have hraw : DimrothWatson._pdfRaw (fun _ => 1) (fun _ => 1) 0 0 = 0.5 := by
    simp [DimrothWatson._pdfRaw, DimrothWatson._norm]
  have hedge : ¬(1 / machineEps ≤ DimrothWatson._pdfRaw (fun _ => 1) (fun _ => 1) 0 0 ∨
      DimrothWatson._pdfRaw (fun _ => 1) (fun _ => 1) 0 0 = 0) := by
    rw [hraw]
    simp only [machineEps, one_div, inv_inv]
    norm_num
  exact ⟨hedge, (pdf_saturation_substitution (fun _ => 1) (fun _ => 1) 0 0).1 hedge⟩

/-- loop invariant of `fitIter`: entered at iterate `n` with fuel
`max_iter + 1 - n`, value `step^[n] 0`, `n < max_iter`, and no stop before,
the loop finishes within the budget, returns the last iterate, and stops
early exactly on the `dp < ptol` test. -/
theorem fitIter_spec (step : ℝ → ℝ) (ptol : ℝ) (max_iter : ℕ) :
    ∀ fuel n, n + fuel = max_iter + 1 → n < max_iter →
      (∀ j, 1 ≤ j → j ≤ n → ¬ fitStopAt step ptol j) →
      1 ≤ (fitIter step ptol max_iter fuel (step^[n] 0) n).2 ∧
      (fitIter step ptol max_iter fuel (step^[n] 0) n).2 ≤ max_iter ∧
      (fitIter step ptol max_iter fuel (step^[n] 0) n).1 =
        step^[(fitIter step ptol max_iter fuel (step^[n] 0) n).2] 0 ∧
      (∀ j, 1 ≤ j → j < (fitIter step ptol max_iter fuel (step^[n] 0) n).2 →
        ¬ fitStopAt step ptol j) ∧
      ((fitIter step ptol max_iter fuel (step^[n] 0) n).2 < max_iter →
        fitStopAt step ptol (fitIter step ptol max_iter fuel (step^[n] 0) n).2) := by
  intro fuel
  induction fuel with
  | zero => intro n hfuel hlt _; omega
  | succ f ih =>
    intro n hfuel hlt hno
    have hstep : step (step^[n] 0) = step^[n + 1] 0 := (Function.iterate_succ_apply' step n 0).symm
    have hdp : (step (step^[n] 0) - step^[n] 0) / step (step^[n] 0) < ptol ↔
        fitStopAt step ptol (n + 1) := by
      unfold fitStopAt
      rw [hstep]
      simp
    by_cases hc : (step (step^[n] 0) - step^[n] 0) / step (step^[n] 0) < ptol ∨
        max_iter ≤ n + 1
    · have hres : fitIter step ptol max_iter (f + 1) (step^[n] 0) n = (step (step^[n] 0), n + 1) := by
        simp only [fitIter]
        rw [if_pos hc]
      rw [hres]
      refine ⟨by omega, by omega, by simpa using hstep, ?_, ?_⟩
      · intro j hj1 hj2
        exact hno j hj1 (by omega)
      · intro hlt2
        rcases hc with hstop | hcap
        · exact hdp.mp hstop
        · omega
    · have hres : fitIter step ptol max_iter (f + 1) (step^[n] 0) n =
          fitIter step ptol max_iter f (step^[n + 1] 0) (n + 1) := by
        simp only [fitIter]
        rw [if_neg hc, hstep]
      push_neg at hc
      have hno2 : ∀ j, 1 ≤ j → j ≤ n + 1 → ¬ fitStopAt step ptol j := by
        intro j hj1 hj2
        rcases Nat.lt_or_ge j (n + 1) with hj | hj
        · exact hno j hj1 (by omega)
        · have hjeq : j = n + 1 := by omega
          rw [hjeq]
          exact fun hstop => absurd (hdp.mpr hstop) (not_lt.mpr hc.1)
      have := ih (n + 1) (by omega) (by omega) hno2
      rw [hres]
      exact this

/-- C7: for every step oracle (modelling the scipy bounded minimization of
the membership-weighted negative log likelihood), every tolerance and every
iteration cap `max_iter ≥ 1`, `fit_watson_mixture_model` starts at `p = 0`,
executes between 1 and `max_iter` iterations, returns the last iterate
`step^[count] 0`, never stops early while `dp = (p1-p0)/p1 ≥ ptol`, and when
it stops before the cap the final iteration satisfied `dp < ptol`. -/
theorem fit_loop_spec (step : ℝ → ℝ) (ptol : ℝ) (max_iter : ℕ) (h : 1 ≤ max_iter) :
    1 ≤ (fit_watson_mixture_model step ptol max_iter).2 ∧
    (fit_watson_mixture_model step ptol max_iter).2 ≤ max_iter ∧
    (fit_watson_mixture_model step ptol max_iter).1 =
      step^[(fit_watson_mixture_model step ptol max_iter).2] 0 ∧
    (∀ j, 1 ≤ j → j < (fit_watson_mixture_model step ptol max_iter).2 →
      ¬ fitStopAt step ptol j) ∧
    ((fit_watson_mixture_model step ptol max_iter).2 < max_iter →
      fitStopAt step ptol (fit_watson_mixture_model step ptol max_iter).2) := by
  have h0 : step^[0] (0 : ℝ) = 0 := rfl
  have hmain := fitIter_spec step ptol max_iter (max_iter + 1) 0 (by omega) (by omega)
    (fun j hj1 hj2 => absurd (hj1.trans hj2) (by omega))
  rw [h0] at hmain
  exact hmain

/-- witness for `fit_loop_spec` with the constant step oracle `fun _ => 1`,
tolerance 1 and iteration cap 1. -/
theorem fit_loop_spec_witness :
    1 ≤ 1 ∧
    (1 ≤ (fit_watson_mixture_model (fun _ => 1) 1 1).2 ∧
     (fit_watson_mixture_model (fun _ => 1) 1 1).2 ≤ 1 ∧
     (fit_watson_mixture_model (fun _ => 1) 1 1).1 =
       (fun _ => (1 : ℝ))^[(fit_watson_mixture_model (fun _ => 1) 1 1).2] 0 ∧
     (∀ j, 1 ≤ j → j < (fit_watson_mixture_model (fun _ => 1) 1 1).2 →
       ¬ fitStopAt (fun _ => 1) 1 j) ∧
     ((fit_watson_mixture_model (fun _ => 1) 1 1).2 < 1 →
       fitStopAt (fun _ => 1) 1 (fit_watson_mixture_model (fun _ => 1) 1 1).2)) :=
  ⟨le_refl 1, fit_loop_spec (fun _ => 1) 1 1 (le_refl 1)⟩

/-- the recursion case of `cCoeff` written over `Finset.range` without the
`attach` used for termination. -/
theorem cCoeff_add_two (n : ℕ) :
    cCoeff (n + 2) = ∑ m in Finset.range (n + 2),
      cCoeff m * cCoeff (n + 1 - m) / (((m : ℝ) + 1) * (2 * (m : ℝ) + 1)) := by
  rw [cCoeff]
  exact Finset.sum_attach (Finset.range (n + 2))
    (fun m => cCoeff m * cCoeff (n + 1 - m) / (((m : ℝ) + 1) * (2 * (m : ℝ) + 1)))

/-- loop invariant of `erfiinvIter`: after the first `n` iterations the
coefficient array still has length `kmax`, its entries at indices below
`max n 2` agree with the specification coefficients `C_i`, and the
accumulator holds the partial sum of the first `n` series terms. -/
theorem erfiinvIter_invariant (y : ℝ) (kmax : ℕ) (hk : 2 ≤ kmax) :
    ∀ n, n ≤ kmax →
      (erfiinvIter y kmax n).1.length = kmax ∧
      (∀ i, i < kmax → (i < n ∨ i < 2) → (erfiinvIter y kmax n).1.getD i 0 = cCoeff i) ∧
      (erfiinvIter y kmax n).2 = ∑ j in Finset.range n,
        (-1) ^ j * cCoeff j / (2 * (j : ℝ) + 1) * ((Real.sqrt π / 2) * y) ^ (2 * j + 1) := by
  intro n
  induction n with
  | zero =>
    intro _
    refine ⟨by simp [erfiinvIter], ?_, by simp [erfiinvIter]⟩
    intro i _ hi2
    have hi2' : i < 2 := by omega
    interval_cases i
    · show (((List.replicate kmax (0 : ℝ)).set 0 1).set 1 1).getD 0 0 = cCoeff 0
      rw [List.getD_set_ne 0 _ 1 0 (by omega), List.getD_set_self 0 _ 0 (by simp; omega)]
      simp [cCoeff]
    · show (((List.replicate kmax (0 : ℝ)).set 0 1).set 1 1).getD 1 0 = cCoeff 1
      rw [List.getD_set_self 0 _ 1 (by simp; omega)]
      simp [cCoeff]
  | succ n ih =>
    intro hn1
    have hn : n ≤ kmax := by omega
    obtain ⟨hlen, hent, hacc⟩ := ih hn
    by_cases hcase : 1 < n
    · -- the iteration recomputes c[n]
      obtain ⟨t, rfl⟩ : ∃ t, n = t + 2 := ⟨n - 2, by omega⟩
      have hv : (∑ m in Finset.range (t + 2),
          (erfiinvIter y kmax (t + 2)).1.getD m 0 *
            (erfiinvIter y kmax (t + 2)).1.getD (t + 2 - 1 - m) 0 /
              (((m : ℝ) + 1) * (2 * (m : ℝ) + 1))) = cCoeff (t + 2) := by
        rw [cCoeff_add_two]
        refine Finset.sum_congr rfl ?_
        intro m hm
        have hmlt : m < t + 2 := Finset.mem_range.mp hm
        have h1 : (erfiinvIter y kmax (t + 2)).1.getD m 0 = cCoeff m :=
          hent m (by omega) (Or.inl hmlt)
        have hsub : t + 2 - 1 - m = t + 1 - m := rfl
        have h2 : (erfiinvIter y kmax (t + 2)).1.getD (t + 2 - 1 - m) 0 = cCoeff (t + 1 - m) := by
          rw [hsub]
          exact hent (t + 1 - m) (by omega) (Or.inl (by omega))
        rw [h1, h2]
      have hunfold : erfiinvIter y kmax (t + 2 + 1) =
          ((erfiinvIter y kmax (t + 2)).1.set (t + 2) (cCoeff (t + 2)),
           (erfiinvIter y kmax (t + 2)).2 +
             (-1) ^ (t + 2) * cCoeff (t + 2) / (2 * ((t + 2 : ℕ) : ℝ) + 1) *
               ((Real.sqrt π / 2) * y) ^ (2 * (t + 2) + 1)) := by
        show (let st := erfiinvIter y kmax (t + 2)
              let c := if 1 < t + 2 then
                  st.1.set (t + 2) (∑ m in Finset.range (t + 2),
                    st.1.getD m 0 * st.1.getD (t + 2 - 1 - m) 0 /
                      (((m : ℝ) + 1) * (2 * (m : ℝ) + 1)))
                else st.1
              (c, st.2 + (-1) ^ (t + 2) * c.getD (t + 2) 0 / (2 * ((t + 2 : ℕ) : ℝ) + 1) *
                ((Real.sqrt π / 2) * y) ^ (2 * (t + 2) + 1))) = _
        simp only
        rw [if_pos hcase, hv]
        rw [List.getD_set_self 0 _ (t + 2) (by rw [hlen]; omega)]
      have h1 := congrArg Prod.fst hunfold
      have h2 := congrArg Prod.snd hunfold
      simp only at h1 h2
      refine ⟨?_, ?_, ?_⟩
      · rw [h1]
        simpa using hlen
      · intro i hik hi
        rw [h1]
        by_cases hieq : i = t + 2
        · rw [hieq]
          rw [List.getD_set_self 0 _ (t + 2) (by rw [hlen]; omega)]
        · rw [List.getD_set_ne 0 _ (t + 2) i (fun hc => hieq hc.symm)]
          exact hent i hik (by omega)
      · rw [h2, hacc]
        exact (Finset.sum_range_succ _ _).symm
    · -- n = 0 or n = 1: the coefficient array is left unchanged
      have hunfold : erfiinvIter y kmax (n + 1) =
          ((erfiinvIter y kmax n).1,
           (erfiinvIter y kmax n).2 +
             (-1) ^ n * (erfiinvIter y kmax n).1.getD n 0 / (2 * (n : ℝ) + 1) *
               ((Real.sqrt π / 2) * y) ^ (2 * n + 1)) := by
        show (let st := erfiinvIter y kmax n
              let c := if 1 < n then
                  st.1.set n (∑ m in Finset.range n,
                    st.1.getD m 0 * st.1.getD (n - 1 - m) 0 /
                      (((m : ℝ) + 1) * (2 * (m : ℝ) + 1)))
                else st.1
              (c, st.2 + (-1) ^ n * c.getD n 0 / (2 * (n : ℝ) + 1) *
                ((Real.sqrt π / 2) * y) ^ (2 * n + 1))) = _
        simp only
        rw [if_neg hcase]
      rw [hunfold]
      have hcn : (erfiinvIter y kmax n).1.getD n 0 = cCoeff n :=
        hent n (by omega) (Or.inr (by omega))
      refine ⟨hlen, ?_, ?_⟩
      · intro i hik hi
        exact hent i hik (by omega)
      · rw [hacc, hcn, Finset.sum_range_succ]

/-- C9: for every argument `y` and every `kmax ≥ 2`, `erfiinv` returns
exactly the partial sum of the specified series, with the coefficients
`C_0 = C_1 = 1` and the Catalan-like recursion
`C_k = sum over m < k of C_m*C_(k-1-m)/((m+1)(2m+1))`. -/
theorem erfiinv_partial_sum (y : ℝ) (kmax : ℕ) (h : 2 ≤ kmax) :
    erfiinv y kmax = ∑ j in Finset.range kmax,
      (-1) ^ j * cCoeff j / (2 * (j : ℝ) + 1) * ((Real.sqrt π / 2) * y) ^ (2 * j + 1) :=
  (erfiinvIter_invariant y kmax h kmax le_rfl).2.2

/-- witness for `erfiinv_partial_sum` at `y = 0`, `kmax = 2`. -/
theorem erfiinv_partial_sum_witness :
    2 ≤ 2 ∧ erfiinv 0 2 = ∑ j in Finset.range 2,
      (-1) ^ j * cCoeff j / (2 * (j : ℝ) + 1) * ((Real.sqrt π / 2) * 0) ^ (2 * j + 1) :=
  ⟨le_refl 2, erfiinv_partial_sum 0 2 (le_refl 2)⟩

/-- the only error `npMaskedSet` can produce is the broadcast mismatch. -/
theorem npMaskedSet_error_msg {α : Type} [Inhabited α] (res : List α) (ms : List Bool)
    (ys : List α) (e : String) (h : npMaskedSet res ms ys = Except.error e) :
    e = broadcastErrMsg := by
  unfold npMaskedSet at h
  split_ifs at h <;> simp_all

/-- the only error a rejection-loop round can produce is the broadcast
mismatch of the masked assignments. -/
theorem roundBody_error_msg (erf erfi : ℝ → ℝ) (u1 u2 u3 : ℕ → ℕ → ℝ) (st : DimrothWatson.RvsState)
    (e : String) (h : DimrothWatson.roundBody erf erfi u1 u2 u3 st = Except.error e) :
    e = broadcastErrMsg := by
  simp only [DimrothWatson.roundBody] at h
  split at h
  · rename_i e1 heq
    cases h
    exact npMaskedSet_error_msg _ _ _ _ heq
  · split at h
    · rename_i e2 heq2
      cases h
      exact npMaskedSet_error_msg _ _ _ _ heq2
    · cases h

/-- the only error the rejection loop can produce is the broadcast
mismatch. -/
theorem rvsLoop_error_msg (erf erfi : ℝ → ℝ) (u1 u2 u3 : ℕ → ℕ → ℝ) (size : ℕ) :
    ∀ (fuel : ℕ) (st : DimrothWatson.RvsState) (e : String),
      DimrothWatson.rvsLoop erf erfi u1 u2 u3 size fuel st = Except.error e →
        e = broadcastErrMsg := by
  intro fuel
  induction fuel with
  | zero =>
    intro st e h
    simp [DimrothWatson.rvsLoop] at h
  | succ f ih =>
    intro st e h
    simp only [DimrothWatson.rvsLoop] at h
    split at h
    · split at h
      · rename_i e1 heq
        cases h
        exact roundBody_error_msg _ _ _ _ _ _ _ heq
      · exact ih _ e h
    · cases h

/-- every error of `rvsMain` is either the broadcast mismatch of the loop
or the `raise warn(msg)` abort — never the dimension-mismatch message. -/
theorem rvsMain_error_msg (erf erfi : ℝ → ℝ) (u0 : ℕ → ℝ) (ch : ℕ → Bool)
    (u1 u2 u3 : ℕ → ℕ → ℝ) (kL : List ℝ) (sz : ℕ) (e : String)
    (h : DimrothWatson.rvsMain erf erfi u0 ch u1 u2 u3 kL sz = Except.error e) :
    e = broadcastErrMsg ∨ e = raiseWarnErrMsg := by
  simp only [DimrothWatson.rvsMain] at h
  split at h
  · rename_i e1 heq
    cases h
    exact Or.inl (rvsLoop_error_msg _ _ _ _ _ _ _ _ _ heq)
  · split at h
    · cases h
      exact Or.inr rfl
    · cases h

/-- C6: for every requested sample count greater than 1 and all external
inputs, `_rvs` raises the dimension-mismatch `ValueError` exactly when the
shape array's length is neither 1 nor equal to the requested count; shape
arrays of length 1 or of the requested length never produce this error. -/
theorem rvs_dimension_check (erf erfi : ℝ → ℝ) (u0 : ℕ → ℝ) (ch : ℕ → Bool)
    (u1 u2 u3 : ℕ → ℕ → ℝ) (k : List ℝ) (size : ℕ) (h : 1 < size) :
    DimrothWatson._rvs erf erfi u0 ch u1 u2 u3 k size = Except.error dimErrMsg ↔
      (k.length ≠ 1 ∧ k.length ≠ size) := by
  have hs1 : size ≠ 1 := by omega
  constructor
  · intro heq
    simp only [DimrothWatson._rvs] at heq
    rw [if_pos hs1] at heq
    constructor
    · intro hlen1
      have hlen2 : k.length ≠ size := by omega
      rw [if_neg hlen2, if_pos hlen1] at heq
      rcases rvsMain_error_msg _ _ _ _ _ _ _ _ _ _ heq with hc | hc <;>
        exact absurd hc (by decide)
    · intro hlen2
      rw [if_pos hlen2] at heq
      rcases rvsMain_error_msg _ _ _ _ _ _ _ _ _ _ heq with hc | hc <;>
        exact absurd hc (by decide)
  · intro hne
    simp only [DimrothWatson._rvs]
    rw [if_pos hs1, if_neg hne.2, if_neg hne.1]

/-- witness for `rvs_dimension_check`: a shape array of length 2 with
requested size 3 triggers the dimension-mismatch error. -/
theorem rvs_dimension_check_witness :
    1 < 3 ∧
    (DimrothWatson._rvs (fun _ => 1) (fun _ => 1) (fun _ => 0) (fun _ => true)
        (fun _ _ => 0) (fun _ _ => 0) (fun _ _ => 0) [0, 0] 3 = Except.error dimErrMsg ↔
      (([(0 : ℝ), 0].length ≠ 1) ∧ ([(0 : ℝ), 0].length ≠ 3))) :=
  ⟨by norm_num,
   rvs_dimension_check (fun _ => 1) (fun _ => 1) (fun _ => 0) (fun _ => true)
     (fun _ _ => 0) (fun _ _ => 0) (fun _ _ => 0) [0, 0] 3 (by norm_num)⟩

/-- a masked assignment whose value list neither matches the selected count
nor has exactly one element raises the broadcast error. -/
theorem npMaskedSet_len_mismatch {α : Type} [Inhabited α] (res : List α) (ms : List Bool)
    (ys : List α) (h : ys.length ≠ countFalse ms) (h1 : ys.length ≠ 1) :
    npMaskedSet res ms ys = Except.error broadcastErrMsg := by
  unfold npMaskedSet
  rw [if_neg h, if_neg h1]

/-- a rejection-loop round whose pending count differs from the number of
mask-false slots (and is not 1, so numpy cannot broadcast) fails with the
broadcast error at `result[~mask] = y`. -/
theorem roundBody_broadcast_error (erf erfi : ℝ → ℝ) (u1 u2 u3 : ℕ → ℕ → ℝ)
    (st : DimrothWatson.RvsState) (h : st.kk.length ≠ countFalse st.mask)
    (h1 : st.kk.length ≠ 1) :
    DimrothWatson.roundBody erf erfi u1 u2 u3 st = Except.error broadcastErrMsg := by
  simp only [DimrothWatson.roundBody]
  rw [npMaskedSet_len_mismatch _ _ _ (by simpa using h) (by simpa using h1)]

/-- the rejection loop propagates a failing first round. -/
theorem rvsLoop_round_error (erf erfi : ℝ → ℝ) (u1 u2 u3 : ℕ → ℕ → ℝ) (size : ℕ)
    (fuel : ℕ) (st : DimrothWatson.RvsState) (e : String) (hf : fuel ≠ 0)
    (h1 : st.nsucc < size)
    (h2 : DimrothWatson.roundBody erf erfi u1 u2 u3 st = Except.error e) :
    DimrothWatson.rvsLoop erf erfi u1 u2 u3 size fuel st = Except.error e := by
  obtain ⟨f, rfl⟩ : ∃ f, fuel = f + 1 := ⟨fuel - 1, by omega⟩
  simp only [DimrothWatson.rvsLoop]
  rw [if_pos h1, h2]

/-- C2 (failing input): a batch mixing an overflowing shape parameter
(`k = 710`, `exp(k) = inf`) with two ordinary entries crashes inside the
rejection loop instead of returning samples.  The edge position is counted
as a success and removed from the pending pool `kk`, but line 1102 only
enters the `k == 0` positions into the success mask, so the loop's
`result[~mask] = y` assigns the 2 pending candidates to 3 selected slots —
numpy's boolean masked assignment raises its broadcast `ValueError`. -/
theorem rvs_mixed_batch_broadcast_error :
    DimrothWatson._rvs (fun _ => 1) (fun _ => 1) (fun _ => 0) (fun _ => true)
      (fun _ _ => 0) (fun _ _ => 0) (fun _ _ => 0) [710, 1, 1] 3 =
      Except.error broadcastErrMsg := by
  have hz710 : DimrothWatson.zeroB 710 = false := by
    norm_num [DimrothWatson.zeroB]
  have hz1 : DimrothWatson.zeroB 1 = false := by
    norm_num [DimrothWatson.zeroB]
  have he710 : DimrothWatson.edgeB 710 = true := by
    norm_num [DimrothWatson.edgeB, expOverflowK, expUnderflowK]
  have he1 : DimrothWatson.edgeB 1 = false := by
    norm_num [DimrothWatson.edgeB, expOverflowK, expUnderflowK]
  have hp710 : DimrothWatson.pendingB 710 = false := by
    simp [DimrothWatson.pendingB, he710]
  have hp1 : DimrothWatson.pendingB 1 = true := by
    simp [DimrothWatson.pendingB, hz1, he1]
  have hkk : ([(710 : ℝ), 1, 1].filter DimrothWatson.pendingB) = [1, 1] := by
    simp [List.filter, hp710, hp1]
  have hmask : ([(710 : ℝ), 1, 1].map DimrothWatson.zeroB) = [false, false, false] := by
    simp [hz710, hz1]
  have hzf : ([(710 : ℝ), 1, 1].filter DimrothWatson.zeroB) = [] := by
    simp [List.filter, hz710, hz1]
  have hef : ([(710 : ℝ), 1, 1].filter DimrothWatson.edgeB) = [710] := by
    simp [List.filter, he710, he1]
  have hloop : DimrothWatson.rvsLoop (fun _ => 1) (fun _ => 1) (fun _ _ => 0) (fun _ _ => 0)
      (fun _ _ => 0) 3 100 (DimrothWatson.rvsInit (fun _ => 0) (fun _ => true) [710, 1, 1] 3) =
      Except.error broadcastErrMsg := by
    apply rvsLoop_round_error
    · norm_num
    · show (DimrothWatson.rvsInit (fun _ => 0) (fun _ => true) [710, 1, 1] 3).nsucc < 3
      simp only [DimrothWatson.rvsInit]
      rw [hzf, hef]
      norm_num
    · apply roundBody_broadcast_error
      · show ((DimrothWatson.rvsInit (fun _ => 0) (fun _ => true) [710, 1, 1] 3).kk).length ≠
          countFalse (DimrothWatson.rvsInit (fun _ => 0) (fun _ => true) [710, 1, 1] 3).mask
        simp only [DimrothWatson.rvsInit]
        rw [hkk, hmask]
        norm_num [countFalse]
      · show ((DimrothWatson.rvsInit (fun _ => 0) (fun _ => true) [710, 1, 1] 3).kk).length ≠ 1
        simp only [DimrothWatson.rvsInit]
        rw [hkk]
        norm_num
  simp only [DimrothWatson._rvs]
  rw [if_pos (by norm_num : (3 : ℕ) ≠ 1), if_pos (by simp : ([(710 : ℝ), 1, 1]).length = 3)]
  simp only [DimrothWatson.rvsMain]
  rw [hloop]


/-- with the constant streams `uran1 = 0`, `uran2 = 0.9`, `uran3 = 0.7` and
the surrogate external `erf = fun _ => 4/5`, a round of the rejection loop
at shape `k = 1` draws the candidate `y = 0`, whose acceptance ratio
`f(0)/(g1(0)*M1) = 5*sqrt(pi)/16 <= 0.9` rejects it: the round leaves the
state unchanged except for the iteration counter. -/
theorem roundBody_const_reject (n : ℕ) :
    DimrothWatson.roundBody (fun _ => (4 / 5 : ℝ)) (fun _ => (4 / 5 : ℝ)) (fun _ _ => 0)
      (fun _ _ => (0.9 : ℝ)) (fun _ _ => (0.7 : ℝ)) ⟨[0], [false], [1], 0, n⟩ =
      Except.ok ⟨[0], [false], [1], 0, n + 1⟩ := by
  have hs0 : (0 : ℝ) < Real.sqrt π := Real.sqrt_pos.mpr Real.pi_pos
  have hisf : DimrothWatson.g1_isf 0 1 = 0 := by
    simp only [DimrothWatson.g1_isf]
    norm_num [Real.tan_zero]
  have hnorm : DimrothWatson._norm (fun _ => (4 / 5 : ℝ)) (fun _ => (4 / 5 : ℝ)) 1 =
      5 / (4 * Real.sqrt π) := by
    simp only [DimrothWatson._norm]
    rw [if_neg (by norm_num : ¬(1 : ℝ) = 0), if_neg (by norm_num : ¬(1 : ℝ) < 0)]
    rw [abs_one, Real.sqrt_one]
    rw [div_eq_div_iff (by positivity) (by positivity)]
    ring
  have hraw : DimrothWatson._pdfRaw (fun _ => (4 / 5 : ℝ)) (fun _ => (4 / 5 : ℝ)) 0 1 =
      5 / (4 * Real.sqrt π) := by
    simp [DimrothWatson._pdfRaw, hnorm]
  have hs1 : (1 : ℝ) ≤ Real.sqrt π := by
    nlinarith [Real.pi_gt_three, sq_nonneg (Real.sqrt π - 1), sq_nonneg (Real.sqrt π + 1),
      Real.sq_sqrt Real.pi_pos.le]
  have hfy : DimrothWatson.pdf (fun _ => (4 / 5 : ℝ)) (fun _ => (4 / 5 : ℝ)) 0 1 =
      5 / (4 * Real.sqrt π) := by
    simp only [DimrothWatson.pdf]
    rw [if_pos (by norm_num : (-1 : ℝ) ≤ 0 ∧ (0 : ℝ) ≤ 1)]
    simp only [DimrothWatson._pdf, hraw]
    rw [if_neg]
    intro hc
    rcases hc with hc | hc
    · rw [machineEps] at hc
      norm_num at hc
      have hle : 5 / (4 * Real.sqrt π) ≤ 5 / 4 := by
        rw [div_le_div_iff (by positivity) (by norm_num)]
        nlinarith
      nlinarith
    · have : 0 < 5 / (4 * Real.sqrt π) := by positivity
      linarith
  have hgy : DimrothWatson.g1_pdf 0 1 = 2 / π := by
    simp only [DimrothWatson.g1_pdf]
    rw [show (-1 : ℝ) * (-1 * 1) = 1 by norm_num, Real.sqrt_one, Real.arctan_one]
    rw [div_eq_div_iff (by positivity) Real.pi_pos.ne']
    field_simp
    ring
  have hm1 : DimrothWatson.m1 1 = 2 := rfl
  have hratio : DimrothWatson.pdf (fun _ => (4 / 5 : ℝ)) (fun _ => (4 / 5 : ℝ)) 0 1 /
      (DimrothWatson.g1_pdf 0 1 * DimrothWatson.m1 1) ≤ 9 / 10 := by
    rw [hfy, hgy, hm1]
    set s := Real.sqrt π with hsdef
    have hπ : s * s = π := Real.mul_self_sqrt Real.pi_pos.le
    have heq : (5 / (4 * s)) / (2 / π * 2) = 5 * s / 16 := by
      rw [← hπ]
      field_simp
      ring
    rw [heq]
    have hsle : s ≤ 2.88 := by
      nlinarith [Real.pi_lt_315, sq_nonneg (s - 2.88), hπ]
    linarith
  have hdec : decide ((9 : ℝ) / 10 <
      DimrothWatson.pdf (fun _ => (4 / 5 : ℝ)) (fun _ => (4 / 5 : ℝ)) 0 1 /
        (DimrothWatson.g1_pdf 0 1 * DimrothWatson.m1 1)) = false :=
    decide_eq_false (not_lt.mpr hratio)
  norm_num [DimrothWatson.roundBody, hisf, hdec, npMaskedSet, countFalse, fillFalse,
    List.range_succ, List.filter]

/-- the rejection loop under the constantly-rejecting streams: every round
of fuel is consumed, only the iteration counter advances. -/
theorem rvsLoop_const_reject (f : ℕ) : ∀ n : ℕ,
    DimrothWatson.rvsLoop (fun _ => (4 / 5 : ℝ)) (fun _ => (4 / 5 : ℝ)) (fun _ _ => 0)
      (fun _ _ => (0.9 : ℝ)) (fun _ _ => (0.7 : ℝ)) 1 f ⟨[0], [false], [1], 0, n⟩ =
      Except.ok ⟨[0], [false], [1], 0, n + f⟩ := by
  induction f with
  | zero =>
    intro n
    simp [DimrothWatson.rvsLoop]
  | succ g ih =>
    intro n
    show DimrothWatson.rvsLoop (fun _ => (4 / 5 : ℝ)) (fun _ => (4 / 5 : ℝ)) (fun _ _ => 0)
      (fun _ _ => (0.9 : ℝ)) (fun _ _ => (0.7 : ℝ)) 1 (g + 1) ⟨[0], [false], [1], 0, n⟩ = _
    simp only [DimrothWatson.rvsLoop]
    rw [if_pos (show (0 : ℕ) < 1 by norm_num)]
    rw [roundBody_const_reject n]
    show DimrothWatson.rvsLoop (fun _ => (4 / 5 : ℝ)) (fun _ => (4 / 5 : ℝ)) (fun _ _ => 0)
      (fun _ _ => (0.9 : ℝ)) (fun _ _ => (0.7 : ℝ)) 1 g ⟨[0], [false], [1], 0, n + 1⟩ = _
    rw [ih (n + 1), show n + 1 + g = n + (g + 1) from by omega]

/-- C1 (failing input): a single-sample batch at shape `k = 1` whose
acceptance draws `uran2 = 0.9` reject the candidate in all 100 rounds
(possible, since each candidate `y = 0` has acceptance probability
`5*sqrt(pi)/16 < 0.9` against these draws) reaches the iteration cap with
the sample unresolved — and `_rvs` then ABORTS instead of returning the
best-available draw with a warning: line 1152 executes `raise warn(msg)`,
and since `warnings.warn` returns `None`, the `raise` statement itself
raises `TypeError`, so the batch is lost.  (The surrogate `erf = fun _ =>
4/5` stands for the scipy external; only the acceptance ratio's value,
about 0.554, depends on it.) -/
theorem rvs_cap_raise_aborts :
    DimrothWatson._rvs (fun _ => (4 / 5 : ℝ)) (fun _ => (4 / 5 : ℝ)) (fun _ => 0)
      (fun _ => true) (fun _ _ => 0) (fun _ _ => (0.9 : ℝ)) (fun _ _ => (0.7 : ℝ)) [1] 1 =
      Except.error raiseWarnErrMsg := by
  have hz1 : DimrothWatson.zeroB 1 = false := by
    norm_num [DimrothWatson.zeroB]
  have he1 : DimrothWatson.edgeB 1 = false := by
    norm_num [DimrothWatson.edgeB, expOverflowK, expUnderflowK]
  have hp1 : DimrothWatson.pendingB 1 = true := by
    simp [DimrothWatson.pendingB, hz1, he1]
  have hinit : DimrothWatson.rvsInit (fun _ => 0) (fun _ => true) [1] 1 =
      ⟨[0], [false], [1], 0, 0⟩ := by
    norm_num [DimrothWatson.rvsInit, DimrothWatson.rvsEdgeFill, DimrothWatson.rvsZeroFill,
      hz1, he1, hp1, List.filter, List.range_succ]
  simp only [DimrothWatson._rvs]
  rw [if_neg (by norm_num : ¬(1 : ℕ) ≠ 1)]
  show DimrothWatson.rvsMain (fun _ => (4 / 5 : ℝ)) (fun _ => (4 / 5 : ℝ)) (fun _ => 0)
    (fun _ => true) (fun _ _ => 0) (fun _ _ => (0.9 : ℝ)) (fun _ _ => (0.7 : ℝ)) [1]
    ([1].length) = Except.error raiseWarnErrMsg
  simp only [DimrothWatson.rvsMain, List.length_cons, List.length_nil, hinit]
  rw [rvsLoop_const_reject 100 0]
  norm_num
